import Mathlib

/-!
Verification of the wheel rotation & selection engine of the spin-wheel
repository (`src/components/SpinnerApp.tsx`), shallowly embedded in Lean.

Angles and rotations are JavaScript numbers in the source; they are embedded
as exact rationals (`ℚ`), so every statement is about the exact arithmetic
the spec reasons with.  JavaScript's `%` operator (truncated remainder,
sign of the dividend), `Math.floor`, and `Math.round` are modelled
explicitly below.
-/

namespace SpinWheel

/-- The integer JavaScript arithmetic truncates a quotient to: toward zero
(`Math.trunc`), i.e. floor for non-negative numbers and ceiling for
negative ones. -/
def ratTrunc (q : ℚ) : ℤ := if 0 ≤ q then ⌊q⌋ else ⌈q⌉

/-- JavaScript's `x % m` for finite numbers and `m > 0`:
`x - m * trunc (x / m)` (the remainder carries the sign of the dividend). -/
def jsRem (x m : ℚ) : ℚ := x - m * (ratTrunc (x / m) : ℚ)

/-- `const mod = (n, m) => ((n % m) + m) % m;`  (SpinnerApp.tsx line 69). -/
def mod (n m : ℚ) : ℚ := jsRem (jsRem n m + m) m

/-- `Math.round`: rounds half-up, `⌊x + 1/2⌋`. -/
def jsRound (q : ℚ) : ℤ := ⌊q + 1 / 2⌋

/-- The numeric and list-valued fields of the source's `SpinnerConfig`
record that the engine reads (presentation-only fields — sizes, colors,
easing strings, durations — are not consulted by any claim). -/
structure SpinnerConfig where
  maxOptions : ℕ
  minOptions : ℕ
  maxOptionLength : ℕ
  minRotations : ℕ
  maxRotations : ℕ
  defaultOptions : List String
deriving Repr, DecidableEq

/-- `CONFIG` from SpinnerApp.tsx (lines 47–66), engine-relevant fields. -/
def CONFIG : SpinnerConfig :=
  { maxOptions := 12
  , minOptions := 2
  , maxOptionLength := 50
  , minRotations := 3
  , maxRotations := 6
  , defaultOptions := ["Option 1", "Option 2"] }

/-- `const POINTER_AT_DEG = 270;`  (SpinnerApp.tsx line 68). -/
def POINTER_AT_DEG : ℚ := 270

/-- The component state of `SpinnerApp` that the engine logic touches
(`options`, `newOption`, `isSpinning`, `currentRotation`, `formError`,
`showSuccess`, `pendingPreservedWinner`). -/
structure SpinnerState where
  options : List String
  newOption : String
  isSpinning : Bool
  currentRotation : ℚ
  formError : String
  showSuccess : Bool
  pendingPreservedWinner : Option String
deriving Repr, DecidableEq

/-- `getCurrentWinner` (SpinnerApp.tsx lines 84–92).  The source closes over
the component's `options`; here the list is passed explicitly.  The
`Math.floor(...) % options.length` of the source acts on a non-negative
number (`topWheelAngle ∈ [0, 360)`), where JavaScript's `%` agrees with
`Int.emod`. -/
def getCurrentWinner (options : List String) (totalDegrees : ℚ) : String :=
  if options.length = 0 then ""
  else
    let segmentAngle : ℚ := 360 / (options.length : ℚ)
    let rot : ℚ := mod totalDegrees 360
    let topWheelAngle : ℚ := mod (POINTER_AT_DEG - rot) 360
    let segmentIndex : ℕ := (⌊topWheelAngle / segmentAngle⌋ % (options.length : ℤ)).toNat
    options.getD segmentIndex ""

/-- The canonical rotation computed by the reconciliation `useEffect`
(SpinnerApp.tsx lines 100–102): the base representative in `[0, 360)` that
centers `label`'s segment under the pointer. -/
def reconcileTargetBase (options : List String) (label : String) : ℚ :=
  let index : ℕ := options.indexOf label
  let segmentAngle : ℚ := 360 / (options.length : ℚ)
  let centerWheelAngle : ℚ := (index : ℚ) * segmentAngle + segmentAngle / 2
  mod (POINTER_AT_DEG - centerWheelAngle) 360

/-- The rotation produced by the reconciliation `useEffect` (SpinnerApp.tsx
lines 94–105) once a pending preserved label is being consumed: the source's
`options.indexOf(label); if (index < 0) return;` is the guard on membership,
after which `targetBase + 360 * Math.round((currentRotation - targetBase) / 360)`
is stored.  (The effect also clears `pendingPreservedWinner`; that state
bookkeeping is orthogonal to the rotation arithmetic embedded here.) -/
def reconcile (options : List String) (currentRotation : ℚ) (label : String) : ℚ :=
  if options.contains label then
    let index : ℕ := options.indexOf label
    let segmentAngle : ℚ := 360 / (options.length : ℚ)
    let centerWheelAngle : ℚ := (index : ℚ) * segmentAngle + segmentAngle / 2
    let targetBase : ℚ := mod (POINTER_AT_DEG - centerWheelAngle) 360
    let k : ℤ := jsRound ((currentRotation - targetBase) / 360)
    targetBase + 360 * (k : ℚ)
  else currentRotation

/-- The segment index `Math.floor(Math.random() * options.length)` chooses
(SpinnerApp.tsx line 109), with the random draw `r1 ∈ [0, 1)` injected. -/
def segmentIndexChosen (n : ℕ) (r1 : ℚ) : ℕ := (⌊r1 * (n : ℚ)⌋).toNat

/-- The offset inside the chosen segment (SpinnerApp.tsx lines 110–112):
`margin + Math.random() * (segmentAngle - 2 * margin)` with
`margin = segmentAngle * 0.1`, the random draw `r2 ∈ [0, 1)` injected. -/
def offsetWithinSegment (n : ℕ) (r2 : ℚ) : ℚ :=
  let segmentAngle : ℚ := 360 / (n : ℚ)
  let margin : ℚ := segmentAngle * (1 / 10)
  margin + r2 * (segmentAngle - 2 * margin)

/-- `randomDegrees` (SpinnerApp.tsx lines 107–119) with the three
`Math.random()` draws `r1, r2, r3 ∈ [0, 1)` injected. -/
def randomDegrees (n : ℕ) (r1 r2 r3 : ℚ) : ℚ :=
  let segmentAngle : ℚ := 360 / (n : ℚ)
  let segmentIndex : ℕ := segmentIndexChosen n r1
  let targetAngle : ℚ := (segmentIndex : ℚ) * segmentAngle + offsetWithinSegment n r2
  let spins : ℕ :=
    (⌊r3 * ((CONFIG.maxRotations : ℚ) - (CONFIG.minRotations : ℚ) + 1)⌋).toNat
      + CONFIG.minRotations
  (spins : ℚ) * 360 + targetAngle

/-- `launchSpin` (SpinnerApp.tsx lines 121–129) as a state transition, the
random draws injected.  The `setTimeout` that later clears `isSpinning` is
the animation-completion event and is not part of the synchronous
transition. -/
def launchSpin (s : SpinnerState) (r1 r2 r3 : ℚ) : SpinnerState :=
  if s.isSpinning ∨ s.options.length < CONFIG.minOptions then s
  else
    { s with
      isSpinning := true
      currentRotation := s.currentRotation + randomDegrees s.options.length r1 r2 r3 }

/-- `validateOption` (SpinnerApp.tsx lines 131–141).  JavaScript's
`!trimmed` truthiness test is `trimmed = ""`; the string templates are the
literals they produce with `CONFIG` as defined. -/
def validateOption (options : List String) (value : String)
    (skipDuplicateCheck : Bool := false) : String :=
  let trimmed := value.trim
  if trimmed = "" then "Option cannot be empty"
  else if CONFIG.maxOptionLength < trimmed.length then
    "Option must be 50 characters or less"
  else if !skipDuplicateCheck && options.contains trimmed then
    "This option already exists"
  else if CONFIG.maxOptions ≤ options.length then
    "Maximum 12 options allowed"
  else ""

/-- `handleSubmit` (SpinnerApp.tsx lines 143–156) as a state transition
(the `e.preventDefault()` and the success-notification timer are
presentation).  On the success path the source reads `getCurrentWinner`
against the pre-mutation option list. -/
def handleSubmit (s : SpinnerState) : SpinnerState :=
  let error := validateOption s.options s.newOption
  if error ≠ "" then { s with formError := error }
  else
    { s with
      pendingPreservedWinner := some (getCurrentWinner s.options s.currentRotation)
      options := s.options ++ [s.newOption.trim]
      newOption := ""
      formError := ""
      showSuccess := true }

/-- `handleEditOption` (SpinnerApp.tsx lines 167–183) as a state transition;
the `prompt` result is the injected `updatedText` (`none` = cancelled), and
`alert` is a pure side effect, so a rejected edit returns the state
unchanged.  `options[index]` is `getD index ""` (callers pass an index of a
rendered row, which is in range). -/
def handleEditOption (s : SpinnerState) (index : ℕ) (updatedText : Option String) :
    SpinnerState :=
  match updatedText with
  | none => s
  | some t =>
    let current := s.options.getD index ""
    let trimmed := t.trim
    if trimmed = "" then s
    else
      let error := validateOption s.options trimmed (trimmed == current)
      if error ≠ "" then s
      else { s with options := s.options.set index trimmed }

/-- A concrete state used by the concrete-input theorems below: the app's
initial state shape (two options, not spinning, rotation 0). -/
def initialState : SpinnerState :=
  { options := ["A", "B"]
  , newOption := ""
  , isSpinning := false
  , currentRotation := 0
  , formError := ""
  , showSuccess := false
  , pendingPreservedWinner := none }

/-! ## The double-remainder trick is true modulo

`mod n m = ((n % m) + m) % m` with JavaScript's truncated remainder equals
the mathematical modulo `m * Int.fract (n / m)` for every `m > 0`. -/

theorem jsRem_of_nonneg_lt {y m : ℚ} (hm : 0 < m) (h0 : 0 ≤ y) (h1 : y < m) :
    jsRem y m = y := by
  have hq0 : 0 ≤ y / m := div_nonneg h0 hm.le
  have hq1 : y / m < 1 := (div_lt_one hm).2 h1
  have hfl : ⌊y / m⌋ = 0 := Int.floor_eq_zero_iff.2 ⟨hq0, hq1⟩
  simp [jsRem, ratTrunc, if_pos hq0, hfl]

theorem jsRem_add_left {r m : ℚ} (hm : 0 < m) (h0 : 0 ≤ r) (h1 : r < m) :
    jsRem (r + m) m = r := by
  have hm0 : m ≠ 0 := ne_of_gt hm
  have hq : (r + m) / m = r / m + 1 := by field_simp
  have hq0 : 0 ≤ r / m := div_nonneg h0 hm.le
  have hq1 : r / m < 1 := (div_lt_one hm).2 h1
  have hfl0 : ⌊r / m⌋ = 0 := Int.floor_eq_zero_iff.2 ⟨hq0, hq1⟩
  have h0t : 0 ≤ (r + m) / m := by rw [hq]; linarith
  have hfl : ⌊(r + m) / m⌋ = 1 := by rw [hq, Int.floor_add_one, hfl0]; norm_num
  simp only [jsRem, ratTrunc, if_pos h0t, hfl]
  push_cast
  ring

theorem mod_eq_fract (x : ℚ) {m : ℚ} (hm : 0 < m) :
    mod x m = m * Int.fract (x / m) := by
  have hm0 : m ≠ 0 := ne_of_gt hm
  have hfr0 : 0 ≤ m * Int.fract (x / m) :=
    mul_nonneg hm.le (Int.fract_nonneg _)
  have hfr1 : m * Int.fract (x / m) < m := by
    have h1 := Int.fract_lt_one (x / m)
    nlinarith
  have hx : m * (x / m) = x := by field_simp
  by_cases h : 0 ≤ x / m
  · have h1 : jsRem x m = m * Int.fract (x / m) := by
      simp only [jsRem, ratTrunc, if_pos h, Int.fract, mul_sub, hx]
    rw [mod, h1, jsRem_add_left hm hfr0 hfr1]
  · push_neg at h
    by_cases hz : Int.fract (x / m) = 0
    · have hfl : ((⌊x / m⌋ : ℤ) : ℚ) = x / m := by
        have := Int.self_sub_floor (x / m)
        rw [Int.fract] at hz
        linarith [hz]
      have hceil : ⌈x / m⌉ = ⌊x / m⌋ := by
        conv_lhs => rw [← hfl]
        rw [Int.ceil_intCast]
      have h1 : jsRem x m = 0 := by
        simp only [jsRem, ratTrunc, if_neg (not_le.2 h), hceil]
        rw [hfl]
        field_simp
      rw [mod, h1, hz, mul_zero, zero_add]
      have := jsRem_add_left hm (le_refl (0 : ℚ)) hm
      rwa [zero_add] at this
    · have hfpos : 0 < Int.fract (x / m) :=
        lt_of_le_of_ne (Int.fract_nonneg _) (Ne.symm hz)
      have hlow : (⌊x / m⌋ : ℚ) < x / m := by
        have := Int.self_sub_floor (x / m)
        rw [Int.fract] at hfpos
        linarith
      have hceil : ⌈x / m⌉ = ⌊x / m⌋ + 1 := by
        have hlb : ⌊x / m⌋ < ⌈x / m⌉ := by
          have h2 : (x / m : ℚ) ≤ ⌈x / m⌉ := Int.le_ceil _
          exact_mod_cast lt_of_lt_of_le hlow h2
        have hub : ⌈x / m⌉ ≤ ⌊x / m⌋ + 1 := by
          apply Int.ceil_le.2
          push_cast
          linarith [Int.lt_floor_add_one (x / m)]
        omega
      have h1 : jsRem x m = m * Int.fract (x / m) - m := by
        simp only [jsRem, ratTrunc, if_neg (not_le.2 h), hceil, Int.fract, mul_sub, hx]
        push_cast
        ring
      have h2 : jsRem x m + m = m * Int.fract (x / m) := by rw [h1]; ring
      rw [mod, h2, jsRem_of_nonneg_lt hm hfr0 hfr1]

theorem mod_nonneg (x : ℚ) {m : ℚ} (hm : 0 < m) : 0 ≤ mod x m := by
  rw [mod_eq_fract x hm]
  exact mul_nonneg hm.le (Int.fract_nonneg _)

theorem mod_lt (x : ℚ) {m : ℚ} (hm : 0 < m) : mod x m < m := by
  rw [mod_eq_fract x hm]
  have h1 := Int.fract_lt_one (x / m)
  nlinarith

theorem mod_eq_sub_floor (x : ℚ) {m : ℚ} (hm : 0 < m) :
    mod x m = x - m * ⌊x / m⌋ := by
  rw [mod_eq_fract x hm, Int.fract]
  have hm0 : m ≠ 0 := ne_of_gt hm
  field_simp

theorem mod_add_int (x : ℚ) {m : ℚ} (hm : 0 < m) (k : ℤ) :
    mod (x + m * k) m = mod x m := by
  have hm0 : m ≠ 0 := ne_of_gt hm
  rw [mod_eq_fract _ hm, mod_eq_fract _ hm]
  have : (x + m * k) / m = x / m + k := by field_simp; ring
  rw [this, Int.fract_add_int]

theorem mod_eq_self {x m : ℚ} (hm : 0 < m) (h0 : 0 ≤ x) (h1 : x < m) :
    mod x m = x := by
  rw [mod_eq_fract x hm]
  have hq0 : 0 ≤ x / m := div_nonneg h0 hm.le
  have hq1 : x / m < 1 := (div_lt_one hm).2 h1
  rw [Int.fract_eq_self.2 ⟨hq0, hq1⟩]
  field_simp

theorem mod_congr {x y m : ℚ} (hm : 0 < m) (k : ℤ) (h : x = y + m * k) :
    mod x m = mod y m := by
  rw [h, mod_add_int y hm k]

/-! ## `Math.round` picks the nearest representative -/

theorem jsRound_dist_le_half (y : ℚ) : |(jsRound y : ℚ) - y| ≤ 1 / 2 := by
  rw [jsRound, abs_le]
  constructor
  · linarith [Int.lt_floor_add_one (y + 1 / 2)]
  · linarith [Int.floor_le (y + 1 / 2)]

theorem jsRound_nearest (y : ℚ) (m : ℤ) :
    |(jsRound y : ℚ) - y| ≤ |(m : ℚ) - y| := by
  have hk1 : (jsRound y : ℚ) ≤ y + 1 / 2 := Int.floor_le (y + 1 / 2)
  have hk2 : y + 1 / 2 < (jsRound y : ℚ) + 1 := Int.lt_floor_add_one (y + 1 / 2)
  rcases lt_trichotomy m (jsRound y) with hlt | heq | hgt
  · have hm : (m : ℚ) ≤ (jsRound y : ℚ) - 1 := by exact_mod_cast Int.le_sub_one_of_lt hlt
    have h1 : y - (m : ℚ) ≥ 1 / 2 := by linarith
    calc |(jsRound y : ℚ) - y| ≤ 1 / 2 := jsRound_dist_le_half y
    _ ≤ y - (m : ℚ) := h1
    _ ≤ |(m : ℚ) - y| := by rw [abs_sub_comm]; exact le_abs_self _
  · rw [heq]
  · have hm : (jsRound y : ℚ) + 1 ≤ (m : ℚ) := by exact_mod_cast Int.add_one_le_of_lt hgt
    have h1 : (m : ℚ) - y ≥ 1 / 2 := by linarith
    calc |(jsRound y : ℚ) - y| ≤ 1 / 2 := jsRound_dist_le_half y
    _ ≤ (m : ℚ) - y := h1
    _ ≤ |(m : ℚ) - y| := le_abs_self _

/-! ## Spec-side formulas, for the refinement comparisons

These two definitions transcribe the SPEC's words (not the source), so the
source's winner computation can be proved equal to them. -/

/-- The spec's `normalize`: true mathematical modulo into `[0, 360)`,
`x - 360 * ⌊x / 360⌋`. -/
def specNormalize (x : ℚ) : ℚ := x - 360 * (⌊x / 360⌋ : ℚ)

/-- The spec's winner-index formula
`floor(normalize(POINTER_ANGLE - normalize(r)) / (360/n)) mod n`
with `POINTER_ANGLE = 270`. -/
def specWinnerIndex (n : ℕ) (r : ℚ) : ℕ :=
  (⌊specNormalize ((270 : ℚ) - specNormalize r) / (360 / (n : ℚ))⌋ % (n : ℤ)).toNat

/-! ## Claims -/

/-- C5 — Angle normalization: for every rational input `x`, `mod x 360`
lies in `[0, 360)` and differs from `x` by an integer multiple of 360 (true
mathematical modulo, not a symmetric remainder); in particular
`mod (-10) 360 = 350`.  The function is a total Lean `def` with no error
cases. -/
theorem mod_normalizes (x : ℚ) :
    0 ≤ mod x 360 ∧ mod x 360 < 360 ∧
      (∃ k : ℤ, x - mod x 360 = 360 * k) ∧ mod (-10 : ℚ) 360 = 350 := by
  have h360 : (0 : ℚ) < 360 := by norm_num
  refine ⟨mod_nonneg x h360, mod_lt x h360, ⟨⌊x / 360⌋, ?_⟩, ?_⟩
  · rw [mod_eq_sub_floor x h360]
    ring
  · have hc : (-10 : ℚ) = 350 + 360 * (-1 : ℤ) := by norm_num
    rw [mod_congr h360 (-1) hc, mod_eq_self h360 (by norm_num) (by norm_num)]

/-- C6 (counterexample) — at the concrete input (empty option list,
rotation 0) the code's winner resolver returns the sentinel value `""`
through its early-return branch; it does not fail with an `InvalidState`
error as the claim states (the embedded function is total and has no error
path at all). -/
theorem getCurrentWinner_nil_returns_value : getCurrentWinner [] 0 = "" := rfl

/-- C6 (amended) — when called with an empty option list the winner
resolver returns the empty-string sentinel `""` (for every rotation),
rather than failing with an error. -/
theorem getCurrentWinner_nil_total (r : ℚ) : getCurrentWinner [] r = "" := rfl

/-- C2 — Winner resolution formula: for every option list of size `n ≥ 2`
and every rotation `r` (negative and `> 360` included), `getCurrentWinner`
returns the option at the spec's index
`floor(normalize(270 - normalize r) / (360/n)) mod n`; and in particular
for options `["A", "B"]` and rotation `0` it returns the option at
index 1, `"B"`. -/
theorem getCurrentWinner_matches_spec_formula (options : List String) (r : ℚ)
    (h : 2 ≤ options.length) :
    getCurrentWinner options r = options.getD (specWinnerIndex options.length r) "" ∧
      getCurrentWinner ["A", "B"] 0 = "B" := by
  constructor
  · have h0 : ¬ options.length = 0 := by omega
    have hmod : ∀ y : ℚ, mod y 360 = specNormalize y := fun y => by
      rw [mod_eq_sub_floor y (by norm_num)]; rfl
    simp only [getCurrentWinner, specWinnerIndex, POINTER_AT_DEG, if_neg h0, hmod]
  · norm_num [getCurrentWinner, mod, jsRem, ratTrunc, POINTER_AT_DEG]

/-- C2 witness: the spec formula agreement evaluated at
`options = ["A", "B"]`, `r = 0`. -/
theorem getCurrentWinner_matches_spec_formula_witness :
    getCurrentWinner ["A", "B"] 0 = ["A", "B"].getD (specWinnerIndex (["A", "B"] : List String).length 0) "" ∧
      getCurrentWinner ["A", "B"] 0 = "B" :=
  getCurrentWinner_matches_spec_formula ["A", "B"] 0 (by norm_num)

/-- Full turns do not change the resolved winner: the resolver only reads
the rotation modulo 360. -/
theorem getCurrentWinner_add_period (options : List String) (x : ℚ) (k : ℤ) :
    getCurrentWinner options (x + 360 * k) = getCurrentWinner options x := by
  simp only [getCurrentWinner, mod_add_int x (by norm_num : (0:ℚ) < 360) k]

/-- Unfolding of `reconcile` on the membership branch. -/
theorem reconcile_eq_of_mem {options : List String} {label : String} (r : ℚ)
    (h : label ∈ options) :
    reconcile options r label =
      reconcileTargetBase options label +
        360 * ((jsRound ((r - reconcileTargetBase options label) / 360) : ℤ) : ℚ) := by
  have hcontains : options.contains label = true := List.elem_eq_true_of_mem h
  simp only [reconcile, reconcileTargetBase, hcontains, if_true]

/-- C3 — Winner preservation under reconciliation: whenever the preserved
label is present in the option list, the rotation computed by the
reconciliation pass resolves to exactly that label, for every current
rotation; hence the winner before and after a preservation-triggered list
mutation coincide. -/
theorem reconcile_preserves_winner (options : List String) (r : ℚ) (label : String)
    (h : label ∈ options) :
    getCurrentWinner options (reconcile options r label) = label := by
  have hn : 0 < options.length := List.length_pos.2 (List.ne_nil_of_mem h)
  have hne : ¬ options.length = 0 := by omega
  have hidx : options.indexOf label < options.length := List.indexOf_lt_length.2 h
  have hnQ : (0 : ℚ) < (options.length : ℚ) := by exact_mod_cast hn
  have h360 : (0 : ℚ) < 360 := by norm_num
  have hseg : (0 : ℚ) < 360 / (options.length : ℚ) := by positivity
  have hc0 : (0 : ℚ) ≤ (options.indexOf label : ℚ) * (360 / (options.length : ℚ)) +
      (360 / (options.length : ℚ)) / 2 := by positivity
  have hc1 : (options.indexOf label : ℚ) * (360 / (options.length : ℚ)) +
      (360 / (options.length : ℚ)) / 2 < 360 := by
    have hidxQ : (options.indexOf label : ℚ) + 1 ≤ (options.length : ℚ) := by
      exact_mod_cast hidx
    have h2 : ((options.indexOf label : ℚ) + 1 / 2) * (360 / (options.length : ℚ)) <
        (options.length : ℚ) * (360 / (options.length : ℚ)) :=
      mul_lt_mul_of_pos_right (by linarith) hseg
    have h3 : (options.length : ℚ) * (360 / (options.length : ℚ)) = 360 := by
      field_simp
    nlinarith
  have htb0 : 0 ≤ reconcileTargetBase options label := mod_nonneg _ h360
  have htb1 : reconcileTargetBase options label < 360 := mod_lt _ h360
  rw [reconcile_eq_of_mem r h, getCurrentWinner_add_period]
  simp only [getCurrentWinner, if_neg hne]
  rw [mod_eq_self h360 htb0 htb1]
  have hPT : POINTER_AT_DEG - reconcileTargetBase options label =
      ((options.indexOf label : ℚ) * (360 / (options.length : ℚ)) +
          (360 / (options.length : ℚ)) / 2) +
        360 * ((⌊(POINTER_AT_DEG -
            ((options.indexOf label : ℚ) * (360 / (options.length : ℚ)) +
              (360 / (options.length : ℚ)) / 2)) / 360⌋ : ℤ) : ℚ) := by
    simp only [reconcileTargetBase]
    rw [mod_eq_sub_floor _ h360]
    ring
  rw [hPT, mod_add_int _ h360, mod_eq_self h360 hc0 hc1]
  have hcs : ((options.indexOf label : ℚ) * (360 / (options.length : ℚ)) +
      (360 / (options.length : ℚ)) / 2) / (360 / (options.length : ℚ)) =
      (options.indexOf label : ℚ) + 1 / 2 := by
    field_simp
    ring
  rw [hcs]
  have hfloor : ⌊(options.indexOf label : ℚ) + 1 / 2⌋ = (options.indexOf label : ℤ) := by
    have hcast : ((options.indexOf label : ℤ) : ℚ) = (options.indexOf label : ℚ) := by
      push_cast
      rfl
    rw [← hcast, Int.floor_int_add]
    norm_num
  rw [hfloor]
  have hmod : (options.indexOf label : ℤ) % (options.length : ℤ) =
      (options.indexOf label : ℤ) :=
    Int.emod_eq_of_lt (Int.natCast_nonneg _) (by exact_mod_cast hidx)
  rw [hmod, Int.toNat_natCast, List.getD_eq_getElem _ _ hidx]
  exact List.getElem_indexOf hidx

/-- C3 witness: reconciling `["A", "B"]` at rotation 0 for label `"A"`
resolves to `"A"`. -/
theorem reconcile_preserves_winner_witness :
    getCurrentWinner ["A", "B"] (reconcile ["A", "B"] 0 "A") = "A" :=
  reconcile_preserves_winner ["A", "B"] 0 "A" (by simp)

/-- C4 — Reconciliation minimal-jump: when the label is present, the
reconciled rotation is congruent to `targetBase` modulo 360, is the
representative of that class nearest to the current rotation `r` (no other
representative `targetBase + 360m` is closer), and the adjustment magnitude
never exceeds 180 degrees. -/
theorem reconcile_minimal_jump (options : List String) (r : ℚ) (label : String)
    (h : label ∈ options) :
    (∃ k : ℤ, reconcile options r label = reconcileTargetBase options label + 360 * k) ∧
      (∀ m : ℤ, |reconcile options r label - r| ≤
        |reconcileTargetBase options label + 360 * m - r|) ∧
      |reconcile options r label - r| ≤ 180 := by
  rw [reconcile_eq_of_mem r h]
  set b : ℚ := reconcileTargetBase options label with hb
  set y : ℚ := (r - b) / 360 with hy
  have h360y : 360 * y = r - b := by rw [hy]; ring
  have hval : ∀ m : ℤ, b + 360 * (m : ℚ) - r = 360 * ((m : ℚ) - y) := by
    intro m
    rw [mul_sub, h360y]
    ring
  have habs : ∀ m : ℤ, |b + 360 * (m : ℚ) - r| = 360 * |(m : ℚ) - y| := by
    intro m
    rw [hval m, abs_mul, abs_of_pos (by norm_num : (0:ℚ) < 360)]
  refine ⟨⟨jsRound y, rfl⟩, ?_, ?_⟩
  · intro m
    rw [habs (jsRound y), habs m]
    have := jsRound_nearest y m
    nlinarith [abs_nonneg ((jsRound y : ℚ) - y), abs_nonneg ((m : ℚ) - y)]
  · rw [habs (jsRound y)]
    have := jsRound_dist_le_half y
    nlinarith [abs_nonneg ((jsRound y : ℚ) - y)]

/-- C4 witness: the minimal-jump property evaluated at `["A", "B"]`,
rotation 0, label `"A"`. -/
theorem reconcile_minimal_jump_witness :
    (∃ k : ℤ, reconcile ["A", "B"] 0 "A" =
        reconcileTargetBase ["A", "B"] "A" + 360 * k) ∧
      (∀ m : ℤ, |reconcile ["A", "B"] 0 "A" - 0| ≤
        |reconcileTargetBase ["A", "B"] "A" + 360 * m - 0|) ∧
      |reconcile ["A", "B"] 0 "A" - 0| ≤ 180 :=
  reconcile_minimal_jump ["A", "B"] 0 "A" (by simp)

/-- C7 — Landing margin: for every list size `n ≥ 2` and every random draw
`r2 ∈ [0, 1)`, the offset chosen inside the target segment satisfies
`margin ≤ offset ≤ segmentAngle - margin` with `segmentAngle = 360/n` and
`margin = segmentAngle * 1/10`, so the landing point is never within
`margin` of either segment boundary. -/
theorem offsetWithinSegment_margin (n : ℕ) (r2 : ℚ) (hn : 2 ≤ n)
    (h0 : 0 ≤ r2) (h1 : r2 < 1) :
    (360 / (n : ℚ)) * (1 / 10) ≤ offsetWithinSegment n r2 ∧
      offsetWithinSegment n r2 ≤ 360 / (n : ℚ) - (360 / (n : ℚ)) * (1 / 10) := by
  have hnQ : (0 : ℚ) < (n : ℚ) := by exact_mod_cast (by omega : 0 < n)
  have hseg : (0 : ℚ) < 360 / (n : ℚ) := by positivity
  have hwidth : (0 : ℚ) ≤ 360 / (n : ℚ) - 2 * ((360 / (n : ℚ)) * (1 / 10)) := by
    nlinarith
  simp only [offsetWithinSegment]
  constructor
  · nlinarith [mul_nonneg h0 hwidth]
  · nlinarith [mul_nonneg (by linarith : (0 : ℚ) ≤ 1 - r2) hwidth]

/-- C7 witness: the margin bounds evaluated at `n = 2`, `r2 = 0`. -/
theorem offsetWithinSegment_margin_witness :
    (360 / ((2 : ℕ) : ℚ)) * (1 / 10) ≤ offsetWithinSegment 2 0 ∧
      offsetWithinSegment 2 0 ≤ 360 / ((2 : ℕ) : ℚ) - (360 / ((2 : ℕ) : ℚ)) * (1 / 10) :=
  offsetWithinSegment_margin 2 0 (by norm_num) (by norm_num) (by norm_num)

/-- C9 — No overlapping spins: whenever `isSpinning` is set or the option
list has fewer than `CONFIG.minOptions = 2` entries, a spin request is a
no-op that returns the state unchanged (same rotation, options and
`isSpinning`), so a second spin never starts during a running animation and
no spin starts below the minimum option count. -/
theorem launchSpin_rejected (s : SpinnerState) (r1 r2 r3 : ℚ)
    (h : s.isSpinning = true ∨ s.options.length < CONFIG.minOptions) :
    launchSpin s r1 r2 r3 = s := by
  simp only [launchSpin]
  rw [if_pos h]

/-- C9 witness: a spin requested while `isSpinning` is set leaves the state
untouched. -/
theorem launchSpin_rejected_witness :
    launchSpin { initialState with isSpinning := true } 0 0 0 =
      { initialState with isSpinning := true } :=
  launchSpin_rejected { initialState with isSpinning := true } 0 0 0 (Or.inl rfl)

/-- C8 — Add-option contract with atomicity: the submitted text is rejected
iff its trim is empty, or its trimmed length exceeds
`CONFIG.maxOptionLength = 50`, or it duplicates an existing label, or the
list already holds `CONFIG.maxOptions = 12` entries; every rejection leaves
the option list, the rotation and the pending-preservation state untouched,
and on success exactly the trimmed label is appended at the end. -/
theorem handleSubmit_contract (s : SpinnerState) :
    (validateOption s.options s.newOption ≠ "" ↔
      (s.newOption.trim = "" ∨ CONFIG.maxOptionLength < s.newOption.trim.length ∨
        s.newOption.trim ∈ s.options ∨ CONFIG.maxOptions ≤ s.options.length)) ∧
      (validateOption s.options s.newOption ≠ "" →
        (handleSubmit s).options = s.options ∧
          (handleSubmit s).currentRotation = s.currentRotation ∧
          (handleSubmit s).pendingPreservedWinner = s.pendingPreservedWinner) ∧
      (validateOption s.options s.newOption = "" →
        (handleSubmit s).options = s.options ++ [s.newOption.trim]) := by
  refine ⟨?_, ?_, ?_⟩
  · simp only [validateOption, Bool.not_false, Bool.true_and]
    split_ifs with h1 h2 h3 h4
    · exact iff_of_true (by decide) (Or.inl h1)
    · exact iff_of_true (by decide) (Or.inr (Or.inl h2))
    · exact iff_of_true (by decide) (Or.inr (Or.inr (Or.inl (by simpa using h3))))
    · exact iff_of_true (by decide) (Or.inr (Or.inr (Or.inr h4)))
    · refine iff_of_false (by simp) ?_
      push_neg
      exact ⟨h1, le_of_not_lt h2, by simpa using h3, lt_of_not_le h4⟩
  · intro hne
    simp only [handleSubmit]
    rw [if_pos hne]
    exact ⟨rfl, rfl, rfl⟩
  · intro heq
    simp only [handleSubmit]
    rw [if_neg (not_not_intro heq)]

/-- Twelve distinct labels: a state at the `CONFIG.maxOptions` capacity. -/
def fullState : SpinnerState :=
  { initialState with
    options := ["O1", "O2", "O3", "O4", "O5", "O6", "O7", "O8", "O9", "O10", "O11", "O12"] }

/-- Any value submitted to the validator while the list is at (or past)
`CONFIG.maxOptions` entries draws an error, whatever the duplicate-check
flag: every branch of the validator returns a non-empty message. -/
theorem validateOption_ne_of_full {options : List String} (value : String)
    (b : Bool) (h : CONFIG.maxOptions ≤ options.length) :
    validateOption options value b ≠ "" := by
  simp only [validateOption]
  split_ifs <;> decide

/-- C10 — Implicit edge case: when the option list already holds exactly
`CONFIG.maxOptions = 12` entries, every edit attempt is rejected — the
validator's list-capacity check runs on the edit path even though editing
does not change the length — so the state (in particular every label) is
left unchanged. -/
theorem handleEditOption_rejected_when_full (s : SpinnerState) (i : ℕ)
    (t : Option String) (h : s.options.length = CONFIG.maxOptions) :
    handleEditOption s i t = s := by
  cases t with
  | none => rfl
  | some u =>
    simp only [handleEditOption]
    split_ifs with h1 h2
    · rfl
    · rfl
    · exact absurd (validateOption_ne_of_full u.trim _ h.ge) h2

/-- C10 witness: editing entry 0 of a full 12-entry list to `"Z"` is
rejected and the state survives unchanged. -/
theorem handleEditOption_rejected_when_full_witness :
    handleEditOption fullState 0 (some "Z") = fullState :=
  handleEditOption_rejected_when_full fullState 0 (some "Z") rfl

/-- C1 — the spin guarantee FAILS on the code: with options `["A", "B"]`,
rotation 0 and the injected random draws all 0, the generator internally
chooses `segmentIndex = 0` (whose option is `"A"`), the new cumulative
rotation is `0 + 3*360 + 0*180 + 18 = 1098`, yet the winner resolver maps
1098 to `"B"` — the resolver reads the segment containing
`270 - rotation`, so the generated local angle does not land the chosen
segment under the pointer. -/
theorem spin_guarantee_fails_concretely :
    segmentIndexChosen 2 0 = 0 ∧
      (launchSpin initialState 0 0 0).currentRotation = 1098 ∧
      getCurrentWinner ["A", "B"] 1098 = "B" ∧
      (["A", "B"] : List String).getD 0 "" = "A" ∧
      getCurrentWinner ["A", "B"] ((launchSpin initialState 0 0 0).currentRotation) ≠
        (["A", "B"] : List String).getD (segmentIndexChosen 2 0) "" := by
  have hseg : segmentIndexChosen 2 0 = 0 := by norm_num [segmentIndexChosen]
  have hrot : (launchSpin initialState 0 0 0).currentRotation = 1098 := by
    norm_num [launchSpin, initialState, randomDegrees, segmentIndexChosen,
      offsetWithinSegment, CONFIG]
  have hwin : getCurrentWinner ["A", "B"] 1098 = "B" := by
    norm_num [getCurrentWinner, mod, jsRem, ratTrunc, POINTER_AT_DEG]
  refine ⟨hseg, hrot, hwin, rfl, ?_⟩
  rw [hrot, hwin, hseg]
  decide

end SpinWheel
